import Mathlib

/-!
# Verification of the `pipes` payment-routing and ledger core

Shallow embedding of the repository's core modules:

* `src/pipes/models.py`    — `Money`, `Transaction`, `Receipt`, `_quantize`
* `src/pipes/policies.py`  — `FeePolicy`, `SplitPolicy`
* `src/pipes/auth.py`      — `AuthRegistry`, `HmacAuthorizer`, `SignedTransaction`
* `src/pipes/serialization.py` — `canonical_transaction_payload`
* `src/pipes/storage.py`   — `SqliteLedger` (`apply`, `verify_chain`, balances)
* `src/pipes/router.py`    — `TransactionRouter.route`
* `src/pipes/vaults.py`    — `VaultRegistry`

Modelling conventions:

* Python `Decimal` values are embedded as exact rationals `ℚ`.
  `Decimal.quantize(Decimal("0.01"), rounding=ROUND_HALF_UP)` becomes `q2`
  (round half away from zero at two fractional digits); the f-string
  rendering `f"{d:.2f}"` of a `Decimal` rounds half to even and becomes
  `fmt2`.
* SHA-256 (hex digest) and HMAC-SHA-256 (hex digest) are embedded as
  abstract function parameters `H : String → String` and
  `mac : String → String → String`; every theorem about hashing is proved
  for all such functions.  UTF-8 byte concatenation of two strings is
  string append (UTF-8 encoding is a monoid homomorphism).
* Python exceptions (`ValueError`) become an `Except Err` result; the
  distinct constructors of `Err` correspond to the distinct error
  messages raised by the source.
* `datetime` values only ever reach the core through `isoformat()`
  strings, so `created_at` fields are embedded as `String`.
* `uuid4().hex` / `datetime.now()` default factories are modelled as
  explicitly supplied parameters.
-/

unseal Rat.mul Rat.inv Rat.add Rat.sub

set_option maxRecDepth 40000

/-- Round half away from zero to an integer, the integer core of Python's
`ROUND_HALF_UP` rounding mode. -/
def roundHalfUpZ (x : ℚ) : ℤ :=
  if 0 ≤ x then (x + 1 / 2).floor else -(-x + 1 / 2).floor

/-- Models `models._quantize`: `amount.quantize(Decimal("0.01"),
rounding=ROUND_HALF_UP)` — half-up rounding at two fractional digits. -/
def q2 (x : ℚ) : ℚ :=
  ((roundHalfUpZ (100 * x) : ℤ) : ℚ) / 100

/-- Round half to even to an integer, the integer core of the default
`ROUND_HALF_EVEN` used by `Decimal.__format__`. -/
def roundHalfEvenZ (x : ℚ) : ℤ :=
  let f : ℤ := x.floor
  if x - f < 1 / 2 then f
  else if 1 / 2 < x - f then f + 1
  else if f % 2 = 0 then f else f + 1

/-- Two-digit zero padding used by the `.2f` fraction part. -/
def pad2 (n : Nat) : String :=
  if n < 10 then "0" ++ toString n else toString n

/-- Models the f-string `f"{d:.2f}"` applied to a `Decimal`:
round half to even at two fractional digits and render with exactly two
digits after the point. -/
def fmt2 (x : ℚ) : String :=
  let n : ℤ := roundHalfEvenZ (100 * x)
  let a : Nat := n.natAbs
  let s : String := toString (a / 100) ++ "." ++ pad2 (a % 100)
  if n < 0 then "-" ++ s else s

/-- The distinct `ValueError`s raised by the core, one constructor per
distinct message in the source. -/
inductive Err where
  /-- `"Money.amount must be non-negative"` (`models.Money.__post_init__`) -/
  | moneyNegative
  /-- `"Currency mismatch"` (`models.Money._assert_same_currency`) -/
  | currencyMismatch
  /-- `"fee_rate must be non-negative"` (`policies.FeePolicy.compute_fee`) -/
  | feeRateNegative
  /-- `"safety_share must be between 0 and 1"` (`policies.SplitPolicy.split`) -/
  | safetyShareRange
  /-- `"SignedTransaction required when authorizer set"` (`router`) -/
  | authRequired
  /-- `"Transaction signature invalid"` (`router`) -/
  | badSignature
  /-- `"No secret registered for from_account"` (`auth.HmacAuthorizer.sign`) -/
  | noSecret
deriving DecidableEq, Repr

/-- Models `models.Money`: an exact decimal amount with a currency tag.
The dataclass itself stores whatever `Decimal` it is given. -/
structure Money where
  amount : ℚ
  currency : String := "USD"
deriving DecidableEq, Repr

/-- Models `Money.__post_init__` construction: `dataclass` field assignment
followed by the non-negativity check, which raises `ValueError` for a
negative amount and performs no quantisation. -/
def mkMoney (amount : ℚ) (currency : String := "USD") : Except Err Money :=
  if amount < 0 then .error .moneyNegative else .ok ⟨amount, currency⟩

/-- Models `Money.quantized`. -/
def Money.quantized (m : Money) : Except Err Money :=
  mkMoney (q2 m.amount) m.currency

/-- Models `Money.__sub__`: currency check, exact subtraction, `_quantize`,
then construction (which rejects a negative result). -/
def Money.sub (a b : Money) : Except Err Money :=
  if a.currency ≠ b.currency then .error .currencyMismatch
  else mkMoney (q2 (a.amount - b.amount)) a.currency

/-- Models `Money.__add__`. -/
def Money.add (a b : Money) : Except Err Money :=
  if a.currency ≠ b.currency then .error .currencyMismatch
  else mkMoney (q2 (a.amount + b.amount)) a.currency

/-- Models `policies.FeePolicy`, a frozen dataclass; its generated
`__init__` stores `fee_rate` without any validation. -/
structure FeePolicy where
  fee_rate : ℚ
deriving DecidableEq, Repr

/-- Models `FeePolicy(...)` construction: the generated dataclass
constructor never raises. -/
def mkFeePolicy (fee_rate : ℚ) : Except Err FeePolicy :=
  .ok ⟨fee_rate⟩

/-- Models `FeePolicy.compute_fee`: validates `fee_rate` at call time,
then returns `Money(_quantize(amount.amount * fee_rate), currency)`. -/
def FeePolicy.compute_fee (p : FeePolicy) (amount : Money) : Except Err Money :=
  if p.fee_rate < 0 then .error .feeRateNegative
  else mkMoney (q2 (amount.amount * p.fee_rate)) amount.currency

/-- Models `policies.SplitPolicy`, a frozen dataclass; its generated
`__init__` stores `safety_share` without any validation. -/
structure SplitPolicy where
  safety_share : ℚ
deriving DecidableEq, Repr

/-- Models `SplitPolicy(...)` construction: the generated dataclass
constructor never raises. -/
def mkSplitPolicy (safety_share : ℚ) : Except Err SplitPolicy :=
  .ok ⟨safety_share⟩

/-- Models `SplitPolicy.split`: validates `safety_share` at call time,
computes `safety = _quantize(fee * safety_share)` and
`growth = _quantize(fee - safety)`. -/
def SplitPolicy.split (p : SplitPolicy) (fee : Money) : Except Err (Money × Money) :=
  if ¬ (0 ≤ p.safety_share ∧ p.safety_share ≤ 1) then .error .safetyShareRange
  else do
    let safety ← mkMoney (q2 (fee.amount * p.safety_share)) fee.currency
    let growth ← mkMoney (q2 (fee.amount - safety.amount)) fee.currency
    return (safety, growth)

example : q2 (99 / 100 * (1 / 100)) = 1 / 100 := by decide
example : q2 (1 / 100 * (1 / 2)) = 1 / 100 := by decide
example : q2 (1005 / 1000) = 101 / 100 := by decide
example : fmt2 (99 / 100) = "0.99" := by decide
example : fmt2 (100 : ℚ) = "100.00" := by decide
example : fmt2 (1005 / 1000) = "1.00" := by decide

/-! ## Canonical JSON serialisation

`json.dumps(payload, sort_keys=True, separators=(",", ":"))` with the
default `ensure_ascii=True`, restricted to the shapes the core
serialises: a flat object of strings, one of whose values may itself be
a flat string-to-string object (the `metadata` sub-object). -/

/-- Lowercase hexadecimal digit. -/
def hexDigit (n : Nat) : Char :=
  if n < 10 then Char.ofNat (48 + n) else Char.ofNat (87 + n)

/-- Four lowercase hex digits, as in a JSON `\uXXXX` escape. -/
def hex4 (n : Nat) : String :=
  String.mk [hexDigit (n / 4096 % 16), hexDigit (n / 256 % 16), hexDigit (n / 16 % 16), hexDigit (n % 16)]

/-- The escape of a single character performed by `json.dumps` with
`ensure_ascii=True`: printable ASCII other than `"` and `\` is literal,
the two-character shorthands cover the usual control characters, every
other character becomes `\uXXXX` (a surrogate pair beyond U+FFFF). -/
def escChar (c : Char) : String :=
  if c = Char.ofNat 34 then "\\\""
  else if c = Char.ofNat 92 then "\\\\"
  else if c = Char.ofNat 10 then "\\n"
  else if c = Char.ofNat 9 then "\\t"
  else if c = Char.ofNat 13 then "\\r"
  else if c = Char.ofNat 8 then "\\b"
  else if c = Char.ofNat 12 then "\\f"
  else if c.toNat < 32 then "\\u" ++ hex4 c.toNat
  else if c.toNat < 127 then String.mk [c]
  else if c.toNat < 65536 then "\\u" ++ hex4 c.toNat
  else
    "\\u" ++ hex4 (55296 + (c.toNat - 65536) / 1024) ++
      "\\u" ++ hex4 (56320 + (c.toNat - 65536) % 1024)

/-- A JSON string literal: quote, escaped characters, quote. -/
def jsonStr (s : String) : String :=
  "\"" ++ String.join (s.data.map escChar) ++ "\""

/-- Lexicographic order on code points for character lists. -/
def strLtL : List Char → List Char → Bool
  | [], [] => false
  | [], _ :: _ => true
  | _ :: _, [] => false
  | a :: as, b :: bs =>
    if a.toNat < b.toNat then true
    else if b.toNat < a.toNat then false
    else strLtL as bs

/-- Python's `str` order: lexicographic on code points. -/
def strLt (a b : String) : Bool :=
  strLtL a.data b.data

/-- Insert a key-value pair into a key-sorted association list
(the sort underlying `sort_keys=True`). -/
def insertKV (p : String × String) : List (String × String) → List (String × String)
  | [] => [p]
  | q :: rest => if strLt q.1 p.1 then q :: insertKV p rest else p :: q :: rest

/-- Sort an association list by key, lexicographically on code points,
as `sort_keys=True` orders `str` keys. -/
def sortKV (l : List (String × String)) : List (String × String) :=
  l.foldr insertKV []

/-- One `"key":"value"` member with the minimal `:` separator. -/
def jsonMember (p : String × String) : String :=
  jsonStr p.1 ++ ":" ++ jsonStr p.2

/-- A flat string-to-string JSON object with sorted keys and minimal
separators: the form `_serialize_metadata` writes and the form the
`metadata` value takes inside a canonical payload. -/
def metaJson (m : List (String × String)) : String :=
  "\x7b" ++ String.intercalate "," ((sortKV m).map jsonMember) ++ "\x7d"

/-- The canonical payload shared by `serialization.canonical_transaction_payload`,
`storage._event_payload` and the payload rebuilt inside
`storage.SqliteLedger.verify_chain`: the seven keys in sorted order
(`amount`, `created_at`, `currency`, `from`, `id`, `metadata`, `to`),
minimal separators, `metadata` as a nested sorted object. -/
def payloadOf (id created_at from_account to_account amount currency : String)
    (metadata : List (String × String)) : String :=
  "\x7b" ++ jsonStr "amount" ++ ":" ++ jsonStr amount ++
    "," ++ jsonStr "created_at" ++ ":" ++ jsonStr created_at ++
    "," ++ jsonStr "currency" ++ ":" ++ jsonStr currency ++
    "," ++ jsonStr "from" ++ ":" ++ jsonStr from_account ++
    "," ++ jsonStr "id" ++ ":" ++ jsonStr id ++
    "," ++ jsonStr "metadata" ++ ":" ++ metaJson metadata ++
    "," ++ jsonStr "to" ++ ":" ++ jsonStr to_account ++ "\x7d"

/-- Models `models.Transaction`; `created_at` is embedded as its
`isoformat()` rendering, `id` as the caller-supplied or generated hex
string, `metadata` as the parsed flat map. -/
structure Transaction where
  from_account : String
  to_account : String
  amount : Money
  id : String
  created_at : String
  metadata : List (String × String) := []
deriving DecidableEq, Repr

/-- Models `serialization.canonical_transaction_payload`:
`json.dumps` with sorted keys and minimal separators over
`{id, from, to, amount: f"{amount:.2f}", currency, created_at, metadata}`. -/
def canonical_transaction_payload (tx : Transaction) : String :=
  payloadOf tx.id tx.created_at tx.from_account tx.to_account
    (fmt2 tx.amount.amount) tx.amount.currency tx.metadata

/-- Models `auth.SignedTransaction`. -/
structure SignedTransaction where
  transaction : Transaction
  signature : String
  key_id : Option String := none
deriving DecidableEq, Repr

/-- Replace the binding of `k` (or append one), the update semantics of
assignment into a Python `dict` keyed by `k`. -/
def upsert (k v : String) : List (String × String) → List (String × String)
  | [] => [(k, v)]
  | p :: rest => if p.1 = k then (k, v) :: rest else p :: upsert k v rest

/-- Models `auth.AuthRegistry`: the in-memory `account → secret` map. -/
structure AuthRegistry where
  secrets : List (String × String) := []
deriving DecidableEq, Repr

/-- Models `AuthRegistry.get_secret` (`dict.get`). -/
def AuthRegistry.get_secret (r : AuthRegistry) (account : String) : Option String :=
  (r.secrets.find? (fun p => p.1 == account)).map Prod.snd

/-- Models `AuthRegistry.register`.  `gen` stands for the value
`secrets.token_hex(32)` would produce; `generated = secret or gen`
falls back to `gen` both when `secret` is `None` and when it is the
empty (falsy) string.  Returns the updated registry and the stored
secret. -/
def AuthRegistry.register (r : AuthRegistry) (account : String)
    (secret : Option String) (gen : String) : AuthRegistry × String :=
  let generated := match secret with
    | none => gen
    | some s => if s = "" then gen else s
  (⟨upsert account generated r.secrets⟩, generated)

/-- Models `AuthRegistry.set_secret`. -/
def AuthRegistry.set_secret (r : AuthRegistry) (account secret : String) : AuthRegistry :=
  ⟨upsert account secret r.secrets⟩

/-- Models `hmac.compare_digest` on two hex-digest strings: functionally
a constant-time equality test. -/
def compareDigest (a b : String) : Bool :=
  a == b

/-- Models `HmacAuthorizer._compute_signature`: `mac` abstracts
`hmac.new(secret, payload, sha256).hexdigest()` over the UTF-8 encodings. -/
def computeSignature (mac : String → String → String) (secret : String) (tx : Transaction) : String :=
  mac secret (canonical_transaction_payload tx)

/-- Models `HmacAuthorizer.sign`: raises for a missing **or empty**
secret (`if not secret`), else pairs the transaction with its MAC. -/
def HmacAuthorizer.sign (mac : String → String → String) (r : AuthRegistry)
    (tx : Transaction) : Except Err SignedTransaction :=
  match r.get_secret tx.from_account with
  | none => .error .noSecret
  | some secret =>
    if secret = "" then .error .noSecret
    else .ok ⟨tx, computeSignature mac secret tx, none⟩

/-- Models `HmacAuthorizer.verify`: false for a missing or empty secret
(`if not secret`), else a `compare_digest` of the recomputed signature
against the presented one.  Total — it never raises. -/
def HmacAuthorizer.verify (mac : String → String → String) (r : AuthRegistry)
    (stx : SignedTransaction) : Bool :=
  match r.get_secret stx.transaction.from_account with
  | none => false
  | some secret =>
    if secret = "" then false
    else compareDigest (computeSignature mac secret stx.transaction) stx.signature

/-! ## Hash-chained ledger store (`storage.SqliteLedger`)

The state of the two tables the claims quantify over: `ledger_events`
(`rows`, in primary-key order, i.e. append order) and `balances`.
Metadata is carried in its parsed form: `apply` writes
`_serialize_metadata(metadata)` (the canonical flat object) into
`metadata_json`, and `verify_chain` reads it back through
`_deserialize_metadata` and re-serialises it canonically, so the
canonical serialisation `metaJson` of the parsed map is exactly the
text the store round-trips. -/

/-- One `ledger_events` row. -/
structure Row where
  event_id : String
  created_at : String
  from_account : String
  to_account : String
  amount : String
  currency : String
  metadata : List (String × String)
  prev_hash : String
  event_hash : String
deriving DecidableEq, Repr

/-- Models `ledger.LedgerEvent` (`created_at` as its `isoformat()`). -/
structure LedgerEvent where
  from_account : String
  to_account : String
  amount : Money
  id : String
  created_at : String
  metadata : List (String × String) := []
deriving DecidableEq, Repr

/-- Models `storage._event_payload`: the canonical payload of an event,
with the amount rendered by `f"{event.amount.amount:.2f}"`. -/
def eventPayload (event : LedgerEvent) : String :=
  payloadOf event.id event.created_at event.from_account event.to_account
    (fmt2 event.amount.amount) event.amount.currency event.metadata

/-- The payload `verify_chain` rebuilds from a stored row: the same
canonical form over the stored field texts. -/
def rowPayload (r : Row) : String :=
  payloadOf r.event_id r.created_at r.from_account r.to_account
    r.amount r.currency r.metadata

/-- Models `SqliteLedger._hash_event`: `H` abstracts the lowercase hex
SHA-256 digest; feeding the digest the UTF-8 bytes of `prev_hash` and
then of `payload` is hashing the UTF-8 bytes of their concatenation. -/
def hashEvent (H : String → String) (prev_hash payload : String) : String :=
  H (prev_hash ++ payload)

/-- Models `SqliteLedger._get_last_hash`: the `event_hash` of the row
with the greatest primary key, or `"GENESIS"` for an empty table. -/
def lastHash : List Row → String
  | [] => "GENESIS"
  | [r] => r.event_hash
  | _ :: r :: rest => lastHash (r :: rest)

/-- Half-even rounding at scale 2: the value that survives the
`f"{balance:.2f}"` round-trip `_update_balance` stores balances through. -/
def r2HE (x : ℚ) : ℚ :=
  ((roundHalfEvenZ (100 * x) : ℤ) : ℚ) / 100

/-- Replace the balance bound to `k` (or insert a fresh row). -/
def upsertQ (k : String) (v : ℚ) : List (String × ℚ) → List (String × ℚ)
  | [] => [(k, v)]
  | p :: rest => if p.1 = k then (k, v) :: rest else p :: upsertQ k v rest

/-- Look up a balance row. -/
def lookupQ (l : List (String × ℚ)) (k : String) : Option ℚ :=
  (l.find? (fun p => p.1 == k)).map Prod.snd

/-- Models `SqliteLedger._update_balance`: read the stored balance, add
the delta, store it back through `f"{balance:.2f}"`. -/
def updBalance (bs : List (String × ℚ)) (account : String) (delta : ℚ) : List (String × ℚ) :=
  match lookupQ bs account with
  | some b => upsertQ account (r2HE (b + delta)) bs
  | none => bs ++ [(account, r2HE delta)]

/-- The two persisted tables the claims are about. -/
structure SqliteState where
  rows : List Row := []
  balances : List (String × ℚ) := []
deriving DecidableEq, Repr

/-- Models `SqliteLedger.apply`: drop a zero-amount event silently;
otherwise read the tail hash, hash the canonical payload onto it,
append the row and update both balances inside the same transaction. -/
def SqliteLedger.apply (H : String → String) (event : LedgerEvent) (s : SqliteState) : SqliteState :=
  if event.amount.amount = 0 then s
  else
    let payload := eventPayload event
    let prev_hash := lastHash s.rows
    let event_hash := hashEvent H prev_hash payload
    { rows := s.rows ++ [{
        event_id := event.id
        created_at := event.created_at
        from_account := event.from_account
        to_account := event.to_account
        amount := fmt2 event.amount.amount
        currency := event.amount.currency
        metadata := event.metadata
        prev_hash := prev_hash
        event_hash := event_hash }]
      balances := updBalance (updBalance s.balances event.from_account (-event.amount.amount))
        event.to_account event.amount.amount }

/-- Apply a whole sequence of events in order. -/
def SqliteLedger.applyAll (H : String → String) (events : List LedgerEvent) (s : SqliteState) : SqliteState :=
  events.foldl (fun acc e => SqliteLedger.apply H e acc) s

/-- The walk inside `SqliteLedger.verify_chain`, carrying
`expected_prev`: check the stored `prev_hash` against it, recompute the
hash of the stored payload, check the stored `event_hash`, continue
with the stored `event_hash` as the new expectation. -/
def verifyFrom (H : String → String) : String → List Row → Bool × Option String
  | _, [] => (true, none)
  | expected_prev, r :: rest =>
    if r.prev_hash ≠ expected_prev then (false, some "prev_hash mismatch")
    else if r.event_hash ≠ hashEvent H r.prev_hash (rowPayload r) then (false, some "event_hash mismatch")
    else verifyFrom H r.event_hash rest

/-- Models `SqliteLedger.verify_chain`: the walk started at `"GENESIS"`. -/
def SqliteLedger.verify_chain (H : String → String) (s : SqliteState) : Bool × Option String :=
  verifyFrom H "GENESIS" s.rows

/-- Models `SqliteLedger.balance`: the stored decimal, or `0`. -/
def SqliteLedger.balance (s : SqliteState) (account : String) : ℚ :=
  (lookupQ s.balances account).getD 0

/-! ## Transaction router (`router.TransactionRouter`) -/

/-- Models `vaults.VaultRegistry`. -/
structure VaultRegistry where
  safety_vault : String
  growth_vault : String
deriving DecidableEq, Repr

/-- Models `router.RouterConfig` with its defaults
(`fee_rate = Decimal("0.01")`, `safety_share = Decimal("0.5")`). -/
structure RouterConfig where
  fee_rate : ℚ := 1 / 100
  safety_share : ℚ := 1 / 2
deriving DecidableEq, Repr

/-- Models `models.Receipt` (`created_at` as its `isoformat()`). -/
structure Receipt where
  transaction_id : String
  gross_amount : Money
  net_amount : Money
  fee_amount : Money
  safety_amount : Money
  growth_amount : Money
  vault_safety : String
  vault_growth : String
  created_at : String
  metadata : Option (List (String × String)) := none
deriving DecidableEq, Repr

/-- The `id`/`created_at` pair a `LedgerEvent`'s default factories
(`uuid4().hex`, `datetime.now(timezone.utc)`) would fill in; the three
events of one `route` call each draw a fresh one. -/
structure EventMeta where
  id : String
  created_at : String
deriving DecidableEq, Repr

/-- The body of `TransactionRouter.route` after authentication:
price (`compute_fee`), split, `net = amount - fee`, three `apply`
calls in the order net / safety / growth, then the receipt.  A raised
`ValueError` (fee-rate, split-share or negative-net) propagates before
the first `apply`, leaving the store untouched. -/
def TransactionRouter.routeTx (H : String → String) (cfg : RouterConfig)
    (vaults : VaultRegistry) (fresh : EventMeta × EventMeta × EventMeta)
    (tx : Transaction) (s : SqliteState) : Except Err Receipt × SqliteState :=
  match FeePolicy.compute_fee ⟨cfg.fee_rate⟩ tx.amount with
  | .error e => (.error e, s)
  | .ok fee =>
  match SplitPolicy.split ⟨cfg.safety_share⟩ fee with
  | .error e => (.error e, s)
  | .ok (safety_amount, growth_amount) =>
  match Money.sub tx.amount fee with
  | .error e => (.error e, s)
  | .ok net_amount =>
    let s1 := SqliteLedger.apply H
      { from_account := tx.from_account, to_account := tx.to_account,
        amount := net_amount, id := fresh.1.id, created_at := fresh.1.created_at,
        metadata := [("transaction_id", tx.id)] } s
    let s2 := SqliteLedger.apply H
      { from_account := tx.from_account, to_account := vaults.safety_vault,
        amount := safety_amount, id := fresh.2.1.id, created_at := fresh.2.1.created_at,
        metadata := [("transaction_id", tx.id), ("vault", "safety")] } s1
    let s3 := SqliteLedger.apply H
      { from_account := tx.from_account, to_account := vaults.growth_vault,
        amount := growth_amount, id := fresh.2.2.id, created_at := fresh.2.2.created_at,
        metadata := [("transaction_id", tx.id), ("vault", "growth")] } s2
    (.ok { transaction_id := tx.id
           gross_amount := tx.amount
           net_amount := net_amount
           fee_amount := fee
           safety_amount := safety_amount
           growth_amount := growth_amount
           vault_safety := vaults.safety_vault
           vault_growth := vaults.growth_vault
           created_at := tx.created_at
           metadata := if tx.metadata = [] then none else some tx.metadata }, s3)

/-- Models `TransactionRouter.route`.  With an authorizer configured a
plain `Transaction` is rejected (`auth-required`) and a
`SignedTransaction` failing `verify` is rejected (`bad-signature`),
both before any store access; with no authorizer either input form is
routed. -/
def TransactionRouter.route (H : String → String) (mac : String → String → String)
    (cfg : RouterConfig) (authorizer : Option AuthRegistry) (vaults : VaultRegistry)
    (fresh : EventMeta × EventMeta × EventMeta)
    (input : Transaction ⊕ SignedTransaction) (s : SqliteState) :
    Except Err Receipt × SqliteState :=
  match authorizer with
  | some reg =>
    match input with
    | .inl _ => (.error .authRequired, s)
    | .inr stx =>
      if HmacAuthorizer.verify mac reg stx then
        TransactionRouter.routeTx H cfg vaults fresh stx.transaction s
      else (.error .badSignature, s)
  | none =>
    match input with
    | .inl tx => TransactionRouter.routeTx H cfg vaults fresh tx s
    | .inr stx => TransactionRouter.routeTx H cfg vaults fresh stx.transaction s

/-! ## Chain validity and tampering -/

/-- The hash-chain well-formedness the spec's chain rule describes,
relative to the expected predecessor hash `expected` (started at
`"GENESIS"`): each row's `prev_hash` is the expected one, each row's
`event_hash` is the digest of `prev_hash ++ canonical payload`, and the
row's `event_hash` becomes the next expectation. -/
def chainOk (H : String → String) : String → List Row → Bool
  | _, [] => true
  | expected, r :: rest =>
    (r.prev_hash == expected && r.event_hash == hashEvent H r.prev_hash (rowPayload r)) &&
      chainOk H r.event_hash rest

/-- `lastHash` written with an explicit starting expectation, the shape
induction wants. -/
def tailHash (e : String) : List Row → String
  | [] => e
  | r :: rest => tailHash r.event_hash rest

/-- A single-field mutation of a stored `ledger_events` row: the five
fields claim C3 quantifies over. -/
inductive Mutation where
  | amount (v : String)
  | from_account (v : String)
  | to_account (v : String)
  | metadata (v : List (String × String))
  | event_hash (v : String)
deriving DecidableEq, Repr

/-- Overwrite the mutated field of a row. -/
def applyMut (m : Mutation) (r : Row) : Row :=
  match m with
  | .amount v => { r with amount := v }
  | .from_account v => { r with from_account := v }
  | .to_account v => { r with to_account := v }
  | .metadata v => { r with metadata := v }
  | .event_hash v => { r with event_hash := v }

/-- The mutation is an actual change visible to the digest: overwriting
`event_hash` stores a value different from the real one, and
overwriting a payload field changes what the recomputed digest of the
row hashes to.  For the real SHA-256 the payload-field cases hold
whenever the new field value differs from the old one, short of a
SHA-256 collision; the abstract `H` makes that collision-freedom an
explicit side condition. -/
def mutChanged (H : String → String) (r : Row) (m : Mutation) : Bool :=
  match m with
  | .event_hash v => v != r.event_hash
  | _ => hashEvent H (applyMut m r).prev_hash (rowPayload (applyMut m r)) != r.event_hash

deriving instance DecidableEq for Except

/-! ## Concrete fixtures for witnesses and counterexamples -/

/-- Injective stand-in for the SHA-256 hex digest in concrete runs. -/
def idH : String → String := fun s => s

/-- Injective-by-construction stand-in for HMAC-SHA-256 in concrete runs. -/
def macD : String → String → String := fun secret payload => secret ++ "|" ++ payload

def vaultsD : VaultRegistry := ⟨"vault:safety", "vault:growth"⟩

def freshD : EventMeta × EventMeta × EventMeta := (⟨"e1", "T1"⟩, ⟨"e2", "T2"⟩, ⟨"e3", "T3"⟩)

/-- Scenario S1: $100.00 from `acct:alice` to `acct:merchant`. -/
def txS1 : Transaction :=
  { from_account := "acct:alice"
    to_account := "acct:merchant"
    amount := ⟨100, "USD"⟩
    id := "tx1"
    created_at := "T0" }

def outS1 : Except Err Receipt × SqliteState :=
  TransactionRouter.route idH macD {} none vaultsD freshD (.inl txS1) {}

def rowDummy : Row := ⟨"", "", "", "", "", "", [], "", ""⟩

/-- The first row the S1 route wrote. -/
def rowS1 : Row := outS1.2.rows.getD 0 rowDummy

/-- Scenario S4: the S1 store with the first row's `amount` overwritten
to `"50.00"`. -/
def tamperedS1 : SqliteState :=
  { outS1.2 with rows := outS1.2.rows.set 0 (applyMut (.amount "50.00") rowS1) }

/-- Scenario S3: $0.99. -/
def tx099 : Transaction :=
  { from_account := "acct:bob"
    to_account := "acct:c"
    amount := ⟨99 / 100, "USD"⟩
    id := "tx3"
    created_at := "T0" }

def out099 : Except Err Receipt × SqliteState :=
  TransactionRouter.route idH macD {} none vaultsD freshD (.inl tx099) {}

/-- A gross amount that is a legal `Decimal` but not quantised to two
places: $1.005. -/
def tx1005 : Transaction :=
  { from_account := "acct:bob"
    to_account := "acct:c"
    amount := ⟨1005 / 1000, "USD"⟩
    id := "tx5"
    created_at := "T0" }

def out1005 : Except Err Receipt × SqliteState :=
  TransactionRouter.route idH macD {} none vaultsD freshD (.inl tx1005) {}

/-- The receipt the router returns for `tx1005`. -/
def rc1005 : Receipt :=
  { transaction_id := "tx5"
    gross_amount := ⟨1005 / 1000, "USD"⟩
    net_amount := ⟨1, "USD"⟩
    fee_amount := ⟨1 / 100, "USD"⟩
    safety_amount := ⟨1 / 100, "USD"⟩
    growth_amount := ⟨0, "USD"⟩
    vault_safety := "vault:safety"
    vault_growth := "vault:growth"
    created_at := "T0" }

def regW : AuthRegistry := ⟨[("acct:alice", "k1")]⟩

def stxGood : SignedTransaction := ⟨txS1, macD "k1" (canonical_transaction_payload txS1), none⟩

def stxBad : SignedTransaction := ⟨txS1, "deadbeef", none⟩

/-- A registry whose stored secret for `acct:alice` is the empty string. -/
def regEmptySec : AuthRegistry := ⟨[("acct:alice", "")]⟩

def evZero : LedgerEvent :=
  { from_account := "a", to_account := "b", amount := ⟨0, "USD"⟩, id := "e0", created_at := "T" }

def evA : LedgerEvent :=
  { from_account := "a", to_account := "b", amount := ⟨5, "USD"⟩, id := "ea", created_at := "T1",
    metadata := [("k", "v")] }

def evB : LedgerEvent :=
  { from_account := "b", to_account := "c", amount := ⟨199 / 100, "USD"⟩, id := "eb", created_at := "T2" }

def stAB : SqliteState := SqliteLedger.applyAll idH [evA, evB] {}

def rowAB0 : Row := stAB.rows.getD 0 rowDummy

def rowAB1 : Row := stAB.rows.getD 1 rowDummy

/-- The receipt the router returns for `tx099` (scenario S3). -/
def rc099 : Receipt :=
  { transaction_id := "tx3"
    gross_amount := ⟨99 / 100, "USD"⟩
    net_amount := ⟨98 / 100, "USD"⟩
    fee_amount := ⟨1 / 100, "USD"⟩
    safety_amount := ⟨1 / 100, "USD"⟩
    growth_amount := ⟨0, "USD"⟩
    vault_safety := "vault:safety"
    vault_growth := "vault:growth"
    created_at := "T0" }

/-- The receipt the router returns for `txS1` (scenario S1). -/
def rcS1w : Receipt :=
  { transaction_id := "tx1"
    gross_amount := ⟨100, "USD"⟩
    net_amount := ⟨99, "USD"⟩
    fee_amount := ⟨1, "USD"⟩
    safety_amount := ⟨1 / 2, "USD"⟩
    growth_amount := ⟨1 / 2, "USD"⟩
    vault_safety := "vault:safety"
    vault_growth := "vault:growth"
    created_at := "T0" }

/-! ## Arithmetic facts about half-up quantisation -/

theorem ratFloor_eq_intFloor (q : ℚ) : q.floor = ⌊q⌋ := by
  rw [Rat.floor_def', Rat.floor_def]

theorem floor_intCast_add_half (k : ℤ) : ((k : ℚ) + 1 / 2).floor = k := by
  rw [ratFloor_eq_intFloor, Int.floor_int_add]
  have h : ⌊(1 / 2 : ℚ)⌋ = 0 := by
    rw [Int.floor_eq_zero_iff]
    constructor <;> norm_num
  omega

theorem roundHalfUpZ_intCast (k : ℤ) : roundHalfUpZ (k : ℚ) = k := by
  unfold roundHalfUpZ
  by_cases h : (0 : ℚ) ≤ (k : ℚ)
  · rw [if_pos h, floor_intCast_add_half]
  · rw [if_neg h]
    have : -(k : ℚ) = ((-k : ℤ) : ℚ) := by push_cast; ring
    rw [this, floor_intCast_add_half]
    omega

/-- A value representable in whole cents. -/
def isCent (x : ℚ) : Prop := ∃ k : ℤ, x = (k : ℚ) / 100

theorem isCent_q2 (x : ℚ) : isCent (q2 x) := ⟨roundHalfUpZ (100 * x), rfl⟩

theorem q2_of_isCent {x : ℚ} (h : isCent x) : q2 x = x := by
  obtain ⟨k, hk⟩ := h
  subst hk
  unfold q2
  rw [mul_div_cancel₀ (k : ℚ) (by norm_num), roundHalfUpZ_intCast]

theorem isCent_of_q2_fixed {x : ℚ} (h : q2 x = x) : isCent x := h ▸ isCent_q2 x

theorem isCent_sub {a b : ℚ} (ha : isCent a) (hb : isCent b) : isCent (a - b) := by
  obtain ⟨j, hj⟩ := ha
  obtain ⟨k, hk⟩ := hb
  exact ⟨j - k, by rw [hj, hk]; push_cast; ring⟩

theorem isCent_add {a b : ℚ} (ha : isCent a) (hb : isCent b) : isCent (a + b) := by
  obtain ⟨j, hj⟩ := ha
  obtain ⟨k, hk⟩ := hb
  exact ⟨j + k, by rw [hj, hk]; push_cast; ring⟩

/-! ## Inversion of the fallible constructors -/

theorem mkMoney_ok {a : ℚ} {c : String} {m : Money} (h : mkMoney a c = .ok m) :
    m = ⟨a, c⟩ ∧ 0 ≤ a := by
  unfold mkMoney at h
  split at h
  · exact absurd h (by simp)
  · next hneg => exact ⟨by cases h; rfl, le_of_not_lt hneg⟩

theorem compute_fee_ok {p : FeePolicy} {amt fee : Money}
    (h : p.compute_fee amt = .ok fee) :
    fee = ⟨q2 (amt.amount * p.fee_rate), amt.currency⟩ ∧ 0 ≤ fee.amount := by
  unfold FeePolicy.compute_fee at h
  split at h
  · exact absurd h (by simp)
  · obtain ⟨hm, hnn⟩ := mkMoney_ok h
    exact ⟨hm, by rw [hm]; exact hnn⟩

theorem split_ok {p : SplitPolicy} {fee safety growth : Money}
    (h : p.split fee = .ok (safety, growth)) :
    safety = ⟨q2 (fee.amount * p.safety_share), fee.currency⟩ ∧
    growth = ⟨q2 (fee.amount - safety.amount), fee.currency⟩ ∧
    0 ≤ safety.amount ∧ 0 ≤ growth.amount := by
  unfold SplitPolicy.split at h
  split at h
  · exact absurd h (by simp)
  · cases hs : mkMoney (q2 (fee.amount * p.safety_share)) fee.currency with
    | error e => rw [hs] at h; exact absurd h (by simp [Bind.bind, Except.bind])
    | ok saf =>
      rw [hs] at h
      simp only [Bind.bind, Except.bind] at h
      obtain ⟨hsaf, hsnn⟩ := mkMoney_ok hs
      cases hg : mkMoney (q2 (fee.amount - saf.amount)) fee.currency with
      | error e => rw [hg] at h; exact absurd h (by simp [Bind.bind, Except.bind])
      | ok gro =>
        rw [hg] at h
        obtain ⟨hgro, hgnn⟩ := mkMoney_ok hg
        simp only [Bind.bind, Except.bind, pure, Except.pure, Except.ok.injEq, Prod.mk.injEq] at h
        obtain ⟨h1, h2⟩ := h
        subst h1; subst h2
        refine ⟨hsaf, ?_, ?_, ?_⟩
        · rw [hgro, hsaf]
        · rw [hsaf]; exact hsnn
        · rw [hgro]; exact hgnn

theorem money_sub_ok {a b m : Money} (h : Money.sub a b = .ok m) :
    m = ⟨q2 (a.amount - b.amount), a.currency⟩ ∧ 0 ≤ m.amount := by
  unfold Money.sub at h
  split at h
  · exact absurd h (by simp)
  · obtain ⟨hm, hnn⟩ := mkMoney_ok h
    exact ⟨hm, by rw [hm]; exact hnn⟩

/-- Inversion of a successful `routeTx`: the receipt carries exactly the
policy outputs — `fee = _quantize(gross * fee_rate)`,
`safety = _quantize(fee * safety_share)`,
`growth = _quantize(fee - safety)`, `net = _quantize(gross - fee)`, and
the gross amount is the transaction's. -/
theorem routeTx_ok {H : String → String} {cfg : RouterConfig} {vaults : VaultRegistry}
    {fresh : EventMeta × EventMeta × EventMeta} {tx : Transaction} {s : SqliteState}
    {rc : Receipt} {s' : SqliteState}
    (h : TransactionRouter.routeTx H cfg vaults fresh tx s = (.ok rc, s')) :
    rc.gross_amount = tx.amount ∧
    rc.fee_amount.amount = q2 (tx.amount.amount * cfg.fee_rate) ∧
    rc.safety_amount.amount = q2 (rc.fee_amount.amount * cfg.safety_share) ∧
    rc.growth_amount.amount = q2 (rc.fee_amount.amount - rc.safety_amount.amount) ∧
    rc.net_amount.amount = q2 (tx.amount.amount - rc.fee_amount.amount) := by
  unfold TransactionRouter.routeTx at h
  cases hf : FeePolicy.compute_fee ⟨cfg.fee_rate⟩ tx.amount with
  | error e => rw [hf] at h; exact absurd h (by simp)
  | ok fee =>
    rw [hf] at h
    dsimp only at h
    obtain ⟨hfee, _⟩ := compute_fee_ok hf
    cases hsp : SplitPolicy.split ⟨cfg.safety_share⟩ fee with
    | error e => rw [hsp] at h; exact absurd h (by simp)
    | ok pr =>
      rw [hsp] at h
      dsimp only at h
      obtain ⟨safety, growth⟩ := pr
      obtain ⟨hsaf, hgro, _, _⟩ := split_ok hsp
      cases hn : Money.sub tx.amount fee with
      | error e => rw [hn] at h; exact absurd h (by simp)
      | ok net =>
        rw [hn] at h
        dsimp only at h
        obtain ⟨hnet, _⟩ := money_sub_ok hn
        simp only [Prod.mk.injEq, Except.ok.injEq] at h
        obtain ⟨hrc, _⟩ := h
        subst hrc
        refine ⟨rfl, ?_, ?_, ?_, ?_⟩
        · rw [hfee]
        · rw [hsaf, hfee]
        · rw [hgro, hsaf, hfee]
        · rw [hnet, hfee]

/-- A successful `route` is a successful `routeTx` on the embedded
transaction. -/
theorem route_ok {H : String → String} {mac : String → String → String}
    {cfg : RouterConfig} {authorizer : Option AuthRegistry} {vaults : VaultRegistry}
    {fresh : EventMeta × EventMeta × EventMeta} {input : Transaction ⊕ SignedTransaction}
    {s : SqliteState} {rc : Receipt} {s' : SqliteState}
    (h : TransactionRouter.route H mac cfg authorizer vaults fresh input s = (.ok rc, s')) :
    ∃ tx : Transaction, TransactionRouter.routeTx H cfg vaults fresh tx s = (.ok rc, s') := by
  unfold TransactionRouter.route at h
  cases authorizer with
  | none =>
    cases input with
    | inl tx => exact ⟨tx, h⟩
    | inr stx => exact ⟨stx.transaction, h⟩
  | some reg =>
    cases input with
    | inl tx => exact absurd h (by simp)
    | inr stx =>
      dsimp only at h
      by_cases hv : HmacAuthorizer.verify mac reg stx = true
      · rw [if_pos hv] at h
        exact ⟨stx.transaction, h⟩
      · rw [if_neg hv] at h
        exact absurd h (by simp)

/-! ## Chain lemmas -/

theorem chainOk_cons {H : String → String} {e : String} {r : Row} {rest : List Row} :
    chainOk H e (r :: rest) = true ↔
      r.prev_hash = e ∧ r.event_hash = hashEvent H r.prev_hash (rowPayload r) ∧
        chainOk H r.event_hash rest = true := by
  simp [chainOk, Bool.and_eq_true, and_assoc]

theorem verifyFrom_of_chainOk {H : String → String} :
    ∀ (rows : List Row) (e : String), chainOk H e rows = true →
      verifyFrom H e rows = (true, none) := by
  intro rows
  induction rows with
  | nil => intro e _; rfl
  | cons r rest ih =>
    intro e hok
    obtain ⟨hprev, hhash, hrest⟩ := chainOk_cons.mp hok
    unfold verifyFrom
    rw [if_neg (by simp [hprev]), if_neg (by simp [hhash.symm])]
    exact ih r.event_hash hrest

theorem lastHash_eq_tailHash : ∀ (rows : List Row), lastHash rows = tailHash "GENESIS" rows := by
  have haux : ∀ (rows : List Row) (r : Row) (e : String),
      tailHash e (r :: rows) = lastHash (r :: rows) := by
    intro rows
    induction rows with
    | nil => intro r e; rfl
    | cons b rest ih =>
      intro r e
      show tailHash r.event_hash (b :: rest) = lastHash (r :: b :: rest)
      rw [ih b r.event_hash]
      rfl
  intro rows
  cases rows with
  | nil => rfl
  | cons r rest => exact (haux rest r "GENESIS").symm

theorem chainOk_snoc {H : String → String} (r : Row) :
    ∀ (rows : List Row) (e : String), chainOk H e rows = true →
      r.prev_hash = tailHash e rows →
      r.event_hash = hashEvent H r.prev_hash (rowPayload r) →
      chainOk H e (rows ++ [r]) = true := by
  intro rows
  induction rows with
  | nil =>
    intro e _ hprev hhash
    exact chainOk_cons.mpr ⟨hprev, hhash, rfl⟩
  | cons a rest ih =>
    intro e hok hprev hhash
    obtain ⟨h1, h2, h3⟩ := chainOk_cons.mp hok
    exact chainOk_cons.mpr ⟨h1, h2, ih a.event_hash h3 hprev hhash⟩

theorem apply_chainOk {H : String → String} (event : LedgerEvent) (s : SqliteState)
    (hok : chainOk H "GENESIS" s.rows = true) :
    chainOk H "GENESIS" (SqliteLedger.apply H event s).rows = true := by
  unfold SqliteLedger.apply
  split
  · exact hok
  · exact chainOk_snoc _ s.rows "GENESIS" hok (lastHash_eq_tailHash s.rows) rfl

theorem applyAll_chainOk {H : String → String} :
    ∀ (events : List LedgerEvent) (s : SqliteState),
      chainOk H "GENESIS" s.rows = true →
      chainOk H "GENESIS" (SqliteLedger.applyAll H events s).rows = true := by
  intro events
  induction events with
  | nil => intro s hok; exact hok
  | cons e rest ih =>
    intro s hok
    exact ih (SqliteLedger.apply H e s) (apply_chainOk e s hok)

theorem chainOk_get_hash {H : String → String} :
    ∀ (rows : List Row) (e : String) (i : Nat) (r : Row),
      chainOk H e rows = true → rows.get? i = some r →
      r.event_hash = H (r.prev_hash ++ rowPayload r) := by
  intro rows
  induction rows with
  | nil => intro e i r _ hget; cases hget
  | cons a rest ih =>
    intro e i r hok hget
    obtain ⟨_, h2, h3⟩ := chainOk_cons.mp hok
    cases i with
    | zero => cases hget; exact h2
    | succ j => exact ih a.event_hash j r h3 hget

theorem chainOk_get_link {H : String → String} :
    ∀ (rows : List Row) (e : String) (i : Nat) (r r' : Row),
      chainOk H e rows = true → rows.get? i = some r → rows.get? (i + 1) = some r' →
      r'.prev_hash = r.event_hash := by
  intro rows
  induction rows with
  | nil => intro e i r r' _ hget _; cases hget
  | cons a rest ih =>
    intro e i r r' hok hget hget'
    obtain ⟨_, _, h3⟩ := chainOk_cons.mp hok
    cases i with
    | zero =>
      cases hget
      cases rest with
      | nil => cases hget'
      | cons b rest2 =>
        cases hget'
        exact (chainOk_cons.mp h3).1
    | succ j => exact ih a.event_hash j r r' h3 hget hget'

theorem chainOk_head_genesis {H : String → String} {rows : List Row} {r : Row} {rest : List Row}
    (hok : chainOk H "GENESIS" rows = true) (hrows : rows = r :: rest) :
    r.prev_hash = "GENESIS" := by
  subst hrows
  exact (chainOk_cons.mp hok).1

theorem applyMut_prev_hash (m : Mutation) (r : Row) : (applyMut m r).prev_hash = r.prev_hash := by
  cases m <;> rfl

theorem verifyFrom_set {H : String → String} {m : Mutation} :
    ∀ (rows : List Row) (e : String) (i : Nat) (r : Row),
      chainOk H e rows = true → rows.get? i = some r → mutChanged H r m = true →
      verifyFrom H e (rows.set i (applyMut m r)) = (false, some "event_hash mismatch") := by
  intro rows
  induction rows with
  | nil => intro e i r _ hget _; cases hget
  | cons a rest ih =>
    intro e i r hok hget hchanged
    obtain ⟨h1, h2, h3⟩ := chainOk_cons.mp hok
    cases i with
    | zero =>
      cases hget
      show verifyFrom H e (applyMut m a :: rest) = (false, some "event_hash mismatch")
      have hneq : (applyMut m a).event_hash ≠
          hashEvent H (applyMut m a).prev_hash (rowPayload (applyMut m a)) := by
        cases m with
        | event_hash v =>
          intro hcontra
          simp only [mutChanged, bne_iff_ne] at hchanged
          exact hchanged (hcontra.trans (congrArg (hashEvent H · (rowPayload a)) (applyMut_prev_hash _ a)) |>.trans h2.symm)
        | amount v =>
          intro hcontra
          simp only [mutChanged, bne_iff_ne] at hchanged
          exact hchanged hcontra.symm
        | from_account v =>
          intro hcontra
          simp only [mutChanged, bne_iff_ne] at hchanged
          exact hchanged hcontra.symm
        | to_account v =>
          intro hcontra
          simp only [mutChanged, bne_iff_ne] at hchanged
          exact hchanged hcontra.symm
        | metadata v =>
          intro hcontra
          simp only [mutChanged, bne_iff_ne] at hchanged
          exact hchanged hcontra.symm
      unfold verifyFrom
      rw [if_neg (by simp [applyMut_prev_hash, h1]), if_pos hneq]
    | succ j =>
      show verifyFrom H e (a :: rest.set j (applyMut m r)) = (false, some "event_hash mismatch")
      unfold verifyFrom
      rw [if_neg (by simp [h1]), if_neg (by simp [h2.symm])]
      exact ih a.event_hash j r h3 hget hchanged

/-! ## Claim theorems -/

/-- Claim C2: after any sequence of `apply` calls on an initially empty
sqlite store, `verify_chain()` returns `(true, none)`; the chain is
well-formed (`chainOk`), i.e. the first stored event's `prev_hash` is
the literal `"GENESIS"`, every subsequent event's `prev_hash` equals
the predecessor's `event_hash`, and each `event_hash` is the digest
`H` (SHA-256 lowercase hex in the source) of the UTF-8 concatenation
`prev_hash ++ canonical_payload`. -/
theorem chain_linkage (H : String → String) (events : List LedgerEvent) :
    SqliteLedger.verify_chain H (SqliteLedger.applyAll H events {}) = (true, none) ∧
    chainOk H "GENESIS" (SqliteLedger.applyAll H events {}).rows = true ∧
    (∀ (r : Row) (rest : List Row),
      (SqliteLedger.applyAll H events {}).rows = r :: rest → r.prev_hash = "GENESIS") ∧
    (∀ (i : Nat) (r r' : Row),
      (SqliteLedger.applyAll H events {}).rows.get? i = some r →
      (SqliteLedger.applyAll H events {}).rows.get? (i + 1) = some r' →
      r'.prev_hash = r.event_hash) ∧
    (∀ (i : Nat) (r : Row),
      (SqliteLedger.applyAll H events {}).rows.get? i = some r →
      r.event_hash = H (r.prev_hash ++ rowPayload r)) := by
  have hok : chainOk H "GENESIS" (SqliteLedger.applyAll H events {}).rows = true :=
    applyAll_chainOk events {} rfl
  refine ⟨verifyFrom_of_chainOk _ _ hok, hok, ?_, ?_, ?_⟩
  · intro r rest hrows
    exact chainOk_head_genesis hok hrows
  · intro i r r' hget hget'
    exact chainOk_get_link _ _ i r r' hok hget hget'
  · intro i r hget
    exact chainOk_get_hash _ _ i r hok hget

theorem chain_linkage_witness :
    SqliteLedger.verify_chain idH stAB = (true, none) ∧
    rowAB0.prev_hash = "GENESIS" ∧
    rowAB1.prev_hash = rowAB0.event_hash ∧
    rowAB0.event_hash = idH (rowAB0.prev_hash ++ rowPayload rowAB0) :=
  ⟨(chain_linkage idH [evA, evB]).1,
   (chain_linkage idH [evA, evB]).2.2.1 rowAB0 [rowAB1] (by decide),
   (chain_linkage idH [evA, evB]).2.2.2.1 0 rowAB0 rowAB1 (by decide) (by decide),
   (chain_linkage idH [evA, evB]).2.2.2.2 0 rowAB0 (by decide)⟩

/-- Claim C3: overwriting any one of the `amount`, `from_account`,
`to_account`, `metadata` or `event_hash` fields of a stored row of a
valid chain makes `verify_chain()` return
`(false, "event_hash mismatch")`.  The side condition `mutChanged`
asks that the overwrite actually be visible to the digest: for an
`event_hash` overwrite, that the new value differs from the stored one;
for a payload-field overwrite, that the recomputed digest of the
mutated row differs from the stored `event_hash` — for the real
SHA-256 this holds for every change of field text short of a SHA-256
collision. -/
theorem tamper_detected (H : String → String) (s : SqliteState) (i : Nat) (r : Row) (m : Mutation)
    (hok : chainOk H "GENESIS" s.rows = true)
    (hget : s.rows.get? i = some r)
    (hchanged : mutChanged H r m = true) :
    SqliteLedger.verify_chain H { s with rows := s.rows.set i (applyMut m r) } =
      (false, some "event_hash mismatch") :=
  verifyFrom_set s.rows "GENESIS" i r hok hget hchanged

/-- Scenario S4 as the concrete instance: route S1, overwrite the first
row's `amount` with `"50.00"`, and `verify_chain` reports the hash
mismatch. -/
theorem tamper_detected_witness :
    SqliteLedger.verify_chain idH tamperedS1 = (false, some "event_hash mismatch") :=
  tamper_detected idH outS1.2 0 rowS1 (.amount "50.00") (by decide) (by decide) (by decide)

/-- Claim C7: `apply` with a zero-amount event returns silently: the
store is exactly unchanged, so chain length and every balance are
unchanged. -/
theorem zero_event_drop (H : String → String) (event : LedgerEvent) (s : SqliteState)
    (h : event.amount.amount = 0) :
    SqliteLedger.apply H event s = s ∧
    (SqliteLedger.apply H event s).rows.length = s.rows.length ∧
    ∀ account, SqliteLedger.balance (SqliteLedger.apply H event s) account =
      SqliteLedger.balance s account := by
  have happ : SqliteLedger.apply H event s = s := by
    unfold SqliteLedger.apply
    rw [if_pos h]
  exact ⟨happ, by rw [happ], fun account => by rw [happ]⟩

theorem zero_event_drop_witness :
    SqliteLedger.apply idH evZero stAB = stAB ∧
    SqliteLedger.balance (SqliteLedger.apply idH evZero stAB) "a" =
      SqliteLedger.balance stAB "a" :=
  ⟨(zero_event_drop idH evZero stAB (by decide)).1,
   (zero_event_drop idH evZero stAB (by decide)).2.2 "a"⟩

/-- Claim C1 (amended): for every transaction `route` accepts with
`amount > 0`, the receipt satisfies `safety + growth == fee` exactly;
and **provided the gross amount is quantised to scale 2** (`q2 a = a`,
which every two-decimal `Decimal` input satisfies), also
`net + fee == gross` exactly.  The proviso is forced: `Money`
construction never quantises, and a gross of `1.005` breaks
`net + fee == gross` (see the counterexample). -/
theorem fee_conservation (H : String → String) (mac : String → String → String)
    (cfg : RouterConfig) (authorizer : Option AuthRegistry) (vaults : VaultRegistry)
    (fresh : EventMeta × EventMeta × EventMeta) (input : Transaction ⊕ SignedTransaction)
    (s : SqliteState) (rc : Receipt) (s' : SqliteState)
    (h : TransactionRouter.route H mac cfg authorizer vaults fresh input s = (.ok rc, s'))
    (_hpos : 0 < rc.gross_amount.amount) :
    rc.safety_amount.amount + rc.growth_amount.amount = rc.fee_amount.amount ∧
    (q2 rc.gross_amount.amount = rc.gross_amount.amount →
      rc.net_amount.amount + rc.fee_amount.amount = rc.gross_amount.amount) := by
  obtain ⟨tx, htx⟩ := route_ok h
  obtain ⟨hg, hf, hs, hgr, hn⟩ := routeTx_ok htx
  rw [← hg] at hf hn
  have hfc : isCent rc.fee_amount.amount := by rw [hf]; exact isCent_q2 _
  have hsc : isCent rc.safety_amount.amount := by rw [hs]; exact isCent_q2 _
  constructor
  · rw [hgr, q2_of_isCent (isCent_sub hfc hsc)]
    ring
  · intro hq
    have hgc : isCent rc.gross_amount.amount := isCent_of_q2_fixed hq
    rw [hn, q2_of_isCent (isCent_sub hgc hfc)]
    ring

theorem fee_conservation_witness :
    (0 : ℚ) < rcS1w.gross_amount.amount ∧
    rcS1w.safety_amount.amount + rcS1w.growth_amount.amount = rcS1w.fee_amount.amount ∧
    rcS1w.net_amount.amount + rcS1w.fee_amount.amount = rcS1w.gross_amount.amount :=
  ⟨by decide,
   (fee_conservation idH macD {} none vaultsD freshD (.inl txS1) {} rcS1w outS1.2
      (by decide) (by decide)).1,
   (fee_conservation idH macD {} none vaultsD freshD (.inl txS1) {} rcS1w outS1.2
      (by decide) (by decide)).2 (by decide)⟩

/-- Claim C1, counterexample to the unamended statement: the router
accepts a transaction with the positive but unquantised gross amount
`1.005` and returns a receipt with `net = 1.00`, `fee = 0.01`, so
`net + fee = 1.01 ≠ 1.005 = gross`. -/
theorem fee_conservation_cex :
    out1005.1 = .ok rc1005 ∧
    0 < rc1005.gross_amount.amount ∧
    rc1005.net_amount.amount + rc1005.fee_amount.amount ≠ rc1005.gross_amount.amount := by
  decide

/-- Claim C5: for every accepted transaction the receipt satisfies
`fee == quantise(gross × fee_rate)` and
`safety == quantise(fee × safety_share)` (half-up at scale 2, `q2`),
`growth == fee − safety`, and `net == quantise(gross − fee)`; the $0.99
default-config instance is the witness. -/
theorem fee_formula (H : String → String) (mac : String → String → String)
    (cfg : RouterConfig) (authorizer : Option AuthRegistry) (vaults : VaultRegistry)
    (fresh : EventMeta × EventMeta × EventMeta) (input : Transaction ⊕ SignedTransaction)
    (s : SqliteState) (rc : Receipt) (s' : SqliteState)
    (h : TransactionRouter.route H mac cfg authorizer vaults fresh input s = (.ok rc, s')) :
    rc.fee_amount.amount = q2 (rc.gross_amount.amount * cfg.fee_rate) ∧
    rc.safety_amount.amount = q2 (rc.fee_amount.amount * cfg.safety_share) ∧
    rc.growth_amount.amount = rc.fee_amount.amount - rc.safety_amount.amount ∧
    rc.net_amount.amount = q2 (rc.gross_amount.amount - rc.fee_amount.amount) := by
  obtain ⟨tx, htx⟩ := route_ok h
  obtain ⟨hg, hf, hs, hgr, hn⟩ := routeTx_ok htx
  rw [← hg] at hf hn
  have hfc : isCent rc.fee_amount.amount := by rw [hf]; exact isCent_q2 _
  have hsc : isCent rc.safety_amount.amount := by rw [hs]; exact isCent_q2 _
  refine ⟨hf, hs, ?_, hn⟩
  rw [hgr, q2_of_isCent (isCent_sub hfc hsc)]

/-- Scenario S3 as the concrete instance: $0.99 at the default
`fee_rate = 0.01`, `safety_share = 0.5` yields `fee = 0.01` (half-up of
0.0099), `safety = 0.01`, `growth = 0.00`, `net = 0.98`. -/
theorem fee_formula_witness :
    rc099.fee_amount.amount = 1 / 100 ∧
    rc099.safety_amount.amount = 1 / 100 ∧
    rc099.growth_amount.amount = 0 ∧
    rc099.net_amount.amount = 98 / 100 ∧
    rc099.fee_amount.amount = q2 (rc099.gross_amount.amount * ({} : RouterConfig).fee_rate) :=
  ⟨by decide, by decide, by decide, by decide,
   (fee_formula idH macD {} none vaultsD freshD (.inl tx099) {} rc099 out099.2 (by decide)).1⟩

/-- Claim C4: with an authorizer configured, `route` rejects a plain
`Transaction` with the auth-required error and rejects a
`SignedTransaction` failing `verify` with the bad-signature error, and
in both cases returns the store exactly as it was — no event appended,
no balance changed. -/
theorem auth_rejection (H : String → String) (mac : String → String → String)
    (reg : AuthRegistry) (cfg : RouterConfig) (vaults : VaultRegistry)
    (fresh : EventMeta × EventMeta × EventMeta) (s : SqliteState) :
    (∀ tx : Transaction,
      TransactionRouter.route H mac cfg (some reg) vaults fresh (.inl tx) s =
        (.error .authRequired, s)) ∧
    (∀ stx : SignedTransaction, HmacAuthorizer.verify mac reg stx = false →
      TransactionRouter.route H mac cfg (some reg) vaults fresh (.inr stx) s =
        (.error .badSignature, s)) := by
  constructor
  · intro tx
    rfl
  · intro stx hv
    simp [TransactionRouter.route, hv]

theorem auth_rejection_witness :
    TransactionRouter.route idH macD {} (some regW) vaultsD freshD (.inl txS1) {} =
      (.error .authRequired, ({} : SqliteState)) ∧
    TransactionRouter.route idH macD {} (some regW) vaultsD freshD (.inr stxBad) {} =
      (.error .badSignature, ({} : SqliteState)) :=
  ⟨(auth_rejection idH macD regW {} vaultsD freshD {}).1 txS1,
   (auth_rejection idH macD regW {} vaultsD freshD {}).2 stxBad (by decide)⟩

/-- Claim C6: for a sender whose registered secret is present (and
non-empty, as `register` guarantees), `verify (sign tx) = true`;
`verify` returns `false` for an unknown sender (and, being a total
function of its inputs, never raises); and `verify` returns `false`
whenever the presented signature differs from the recomputed
`mac secret payload` — which covers both a flipped signature byte and
any transaction-field change that alters the MAC (for HMAC-SHA-256,
any field change short of a collision). -/
theorem signature_roundtrip (mac : String → String → String) (reg : AuthRegistry) :
    (∀ (tx : Transaction) (stx : SignedTransaction),
      HmacAuthorizer.sign mac reg tx = .ok stx → HmacAuthorizer.verify mac reg stx = true) ∧
    (∀ stx : SignedTransaction, reg.get_secret stx.transaction.from_account = none →
      HmacAuthorizer.verify mac reg stx = false) ∧
    (∀ (stx : SignedTransaction) (secret : String),
      reg.get_secret stx.transaction.from_account = some secret →
      stx.signature ≠ mac secret (canonical_transaction_payload stx.transaction) →
      HmacAuthorizer.verify mac reg stx = false) := by
  refine ⟨?_, ?_, ?_⟩
  · intro tx stx hsign
    unfold HmacAuthorizer.sign at hsign
    cases hsec : reg.get_secret tx.from_account with
    | none => rw [hsec] at hsign; exact absurd hsign (by simp)
    | some secret =>
      rw [hsec] at hsign
      dsimp only at hsign
      by_cases hemp : secret = ""
      · rw [if_pos hemp] at hsign; exact absurd hsign (by simp)
      · rw [if_neg hemp] at hsign
        cases hsign
        unfold HmacAuthorizer.verify
        rw [hsec]
        dsimp only
        rw [if_neg hemp]
        simp [compareDigest]
  · intro stx hsec
    unfold HmacAuthorizer.verify
    rw [hsec]
  · intro stx secret hsec hneq
    unfold HmacAuthorizer.verify
    rw [hsec]
    dsimp only
    by_cases hemp : secret = ""
    · rw [if_pos hemp]
    · rw [if_neg hemp]
      simp only [compareDigest, computeSignature, beq_eq_false_iff_ne]
      exact fun hcontra => hneq hcontra.symm

theorem signature_roundtrip_witness :
    HmacAuthorizer.verify macD regW stxGood = true ∧
    HmacAuthorizer.verify macD regW stxBad = false :=
  ⟨(signature_roundtrip macD regW).1 txS1 stxGood (by decide),
   (signature_roundtrip macD regW).2.2 stxBad "k1" (by decide) (by decide)⟩

/-- Claim C8, counterexample to the stated timing: both dataclass
constructors accept out-of-domain parameters without raising — the
policy-domain `ValueError`s are raised only when `compute_fee` / `split`
run. -/
theorem policy_validation_cex :
    mkFeePolicy (-1 / 100) = .ok ⟨-1 / 100⟩ ∧
    mkSplitPolicy (3 / 2) = .ok ⟨3 / 2⟩ ∧
    FeePolicy.compute_fee ⟨-1 / 100⟩ ⟨1, "USD"⟩ = .error .feeRateNegative ∧
    SplitPolicy.split ⟨3 / 2⟩ ⟨1, "USD"⟩ = .error .safetyShareRange := by
  decide

/-- Claim C8 (amended): a negative `fee_rate` and an out-of-range
`safety_share` do raise the policy-domain errors, but at the first
`compute_fee` / `split` call rather than at policy construction. -/
theorem policy_validation_on_use (p : FeePolicy) (sp : SplitPolicy) (amount fee : Money)
    (hp : p.fee_rate < 0) (hsp : ¬(0 ≤ sp.safety_share ∧ sp.safety_share ≤ 1)) :
    p.compute_fee amount = .error .feeRateNegative ∧
    sp.split fee = .error .safetyShareRange := by
  constructor
  · unfold FeePolicy.compute_fee
    rw [if_pos hp]
  · unfold SplitPolicy.split
    rw [if_pos hsp]

theorem policy_validation_on_use_witness :
    FeePolicy.compute_fee ⟨-1⟩ ⟨2, "USD"⟩ = .error .feeRateNegative ∧
    SplitPolicy.split ⟨2⟩ ⟨2, "USD"⟩ = .error .safetyShareRange :=
  policy_validation_on_use ⟨-1⟩ ⟨2⟩ ⟨2, "USD"⟩ ⟨2, "USD"⟩ (by decide) (by decide)

/-- Claim C9, counterexample to the quantised-invariant clause: `Money`
built directly from the unquantised decimal `1.005` keeps `1.005` as
its amount — construction validates non-negativity only and never
quantises. -/
theorem money_quantised_cex :
    mkMoney (1005 / 1000) "USD" = .ok ⟨1005 / 1000, "USD"⟩ ∧
    q2 (1005 / 1000) ≠ 1005 / 1000 := by
  decide

/-- Claim C9 (amended): `Money` construction rejects negative amounts
and otherwise stores the given decimal unchanged (without quantising
it); every amount produced by `quantized`, `__add__` or `__sub__` is
quantised to scale 2. -/
theorem money_invariants (a : ℚ) (c : String) (x y : Money) :
    (a < 0 → mkMoney a c = .error .moneyNegative) ∧
    (∀ m, mkMoney a c = .ok m → 0 ≤ m.amount ∧ m.amount = a) ∧
    (∀ m, x.quantized = .ok m → q2 m.amount = m.amount) ∧
    (∀ m, x.add y = .ok m → q2 m.amount = m.amount) ∧
    (∀ m, x.sub y = .ok m → q2 m.amount = m.amount) := by
  refine ⟨?_, ?_, ?_, ?_, ?_⟩
  · intro hneg
    unfold mkMoney
    rw [if_pos hneg]
  · intro m hm
    obtain ⟨hm', hnn⟩ := mkMoney_ok hm
    exact ⟨by rw [hm']; exact hnn, by rw [hm']⟩
  · intro m hm
    obtain ⟨hm', _⟩ := mkMoney_ok hm
    rw [hm']
    exact q2_of_isCent (isCent_q2 _)
  · intro m hm
    unfold Money.add at hm
    split at hm
    · exact absurd hm (by simp)
    · obtain ⟨hm', _⟩ := mkMoney_ok hm
      rw [hm']
      exact q2_of_isCent (isCent_q2 _)
  · intro m hm
    unfold Money.sub at hm
    split at hm
    · exact absurd hm (by simp)
    · obtain ⟨hm', _⟩ := mkMoney_ok hm
      rw [hm']
      exact q2_of_isCent (isCent_q2 _)

theorem money_invariants_witness :
    mkMoney (-1) "USD" = .error .moneyNegative ∧ q2 (101 / 100) = 101 / 100 :=
  ⟨(money_invariants (-1) "USD" ⟨1005 / 1000, "USD"⟩ ⟨1, "USD"⟩).1 (by decide),
   (money_invariants (-1) "USD" ⟨1005 / 1000, "USD"⟩ ⟨1, "USD"⟩).2.2.1
     ⟨101 / 100, "USD"⟩ (by decide)⟩

theorem get_secret_upsert (account v : String) :
    ∀ l : List (String × String),
      ((upsert account v l).find? (fun p => p.1 == account)).map Prod.snd = some v := by
  intro l
  induction l with
  | nil => simp [upsert, List.find?]
  | cons p rest ih =>
    by_cases hp : p.1 = account
    · simp [upsert, hp, List.find?]
    · simp only [upsert, if_neg hp, List.find?]
      rw [beq_eq_false_iff_ne.mpr hp]
      exact ih

/-- Claim C10: `register` with the empty string stores the freshly
generated secret `gen` (the `secrets.token_hex(32)` value, never empty)
rather than the empty string; and for a sender whose stored secret is
the empty string, `sign` raises the unknown-sender error and `verify`
returns `false`. -/
theorem empty_secret_absent (mac : String → String → String) (reg : AuthRegistry)
    (account gen : String) (tx : Transaction) (sig : String)
    (hgen : gen ≠ "")
    (hsec : reg.get_secret tx.from_account = some "") :
    (reg.register account (some "") gen).2 = gen ∧
    (reg.register account (some "") gen).1.get_secret account = some gen ∧
    (reg.register account (some "") gen).2 ≠ "" ∧
    HmacAuthorizer.sign mac reg tx = .error .noSecret ∧
    HmacAuthorizer.verify mac reg ⟨tx, sig, none⟩ = false := by
  refine ⟨rfl, ?_, hgen, ?_, ?_⟩
  · exact get_secret_upsert account gen reg.secrets
  · unfold HmacAuthorizer.sign
    rw [hsec]
    rfl
  · unfold HmacAuthorizer.verify
    rw [hsec]
    rfl

theorem empty_secret_absent_witness :
    (regEmptySec.register "acct:bob" (some "") "g1").2 = "g1" ∧
    HmacAuthorizer.sign macD regEmptySec txS1 = .error .noSecret ∧
    HmacAuthorizer.verify macD regEmptySec ⟨txS1, "s", none⟩ = false :=
  ⟨(empty_secret_absent macD regEmptySec "acct:bob" "g1" txS1 "s" (by decide) (by decide)).1,
   (empty_secret_absent macD regEmptySec "acct:bob" "g1" txS1 "s" (by decide) (by decide)).2.2.2.1,
   (empty_secret_absent macD regEmptySec "acct:bob" "g1" txS1 "s" (by decide) (by decide)).2.2.2.2⟩
